import Mathlib

/-!
Verification of the pipeline registry and execution engine of
`TextPreprocessor.py` (textpreprocessor-sdk), as a shallow embedding.

The Python class `TextPreprocessor` keeps an ordered list `self.pipeline`
of bound methods.  Methods marked by the `pipeline_method` decorator carry
the attribute `is_pipeline_method = True`; `add_to_pipeline`,
`remove_from_pipeline`, `clear_pipeline` mutate the list and log
info/warning/error messages naming the method; `execute_pipeline` threads a
value through the stages in order with no exception handling of its own.

Embedding choices:
* A pipeline value (Python `str`, `list[str]`, `None`, or anything else)
  becomes the inductive `Value`.
* A raised Python exception becomes an `Except PyExn` result; the engine's
  lack of `try` is the short-circuiting of `Except`.
* A stage (a bound method) becomes a `Stage` structure carrying its
  declared `__name__`, the `is_pipeline_method` flag set by the decorator,
  and its transform.  Bound methods of one instance compare equal exactly
  when they are the same method, and every pipeline method of the class has
  a distinct declared name, so the Python membership test
  `method in self.pipeline` is embedded as membership by name.
* The `self.logger.info/warning/error` calls become a `LogEvent` list
  carrying the method name interpolated into each message.
-/

namespace TextPreprocessorSDK

/-- A Python value flowing through the pipeline: a text (`str`), a token
sequence (`list[str]`), `None`, or some other object (tagged). -/
inductive Value where
  | str (s : String)
  | toks (ts : List String)
  | none
  | other (tag : String)
  deriving DecidableEq, Repr

/-- A raised Python exception. -/
inductive PyExn where
  | typeError (msg : String)
  | attributeError (msg : String)
  | valueError (msg : String)
  | unboundLocalError (name : String)
  deriving DecidableEq, Repr

/-- A pipeline stage: a bound method of `TextPreprocessor`.  `name` is the
method's `__name__`; `is_pipeline_method` is the attribute set by the
`pipeline_method` decorator (lines 54-57); `transform` is the method body,
returning either a value or a raised exception. -/
structure Stage where
  name : String
  is_pipeline_method : Bool
  transform : Value → Except PyExn Value

/-- One logger call made by the pipeline-management methods, carrying the
method name interpolated into the message. -/
inductive LogEvent where
  /-- info: `'... has been successfully added to the pipeline'` (line 69) -/
  | addedInfo (name : String)
  /-- warning: `'... is already in the pipeline'` (line 71) -/
  | alreadyInPipeline (name : String)
  /-- error: `'... is not a pipeline method and cannot be added'` (line 73) -/
  | notPipelineMethod (name : String)
  /-- info: `'... has been successfully removed from the pipeline'` (line 84) -/
  | removedInfo (name : String)
  /-- error: `'... is not in the pipeline'` (line 86) -/
  | notInPipeline (name : String)
  /-- info: `"All methods have been removed from the pipeline"` (line 108) -/
  | clearedAll
  /-- info: `"The pipeline is already empty"` (line 110) -/
  | alreadyEmpty
  deriving DecidableEq, Repr

/-- Python `method in self.pipeline`: membership of a bound method, decided
by its declared name (distinct per method of the class). -/
def memByName (pl : List Stage) (n : String) : Bool :=
  pl.any fun s => s.name == n

/-- Python `self.pipeline.remove(method)`: remove the first occurrence. -/
def eraseByName (pl : List Stage) (n : String) : List Stage :=
  pl.eraseP fun s => s.name == n

/-- `add_to_pipeline` (lines 60-73), after the normalization
`if not isinstance(methods, list): methods = [methods]`: iterate over the
batch; an unmarked method is rejected with an error, a present method is
skipped with a warning, otherwise the method is appended.  Returns the new
pipeline and the log entries in emission order. -/
def add_to_pipeline (pl : List Stage) : List Stage → List Stage × List LogEvent
  | [] => (pl, [])
  | m :: rest =>
    if m.is_pipeline_method then
      if memByName pl m.name then
        let r := add_to_pipeline pl rest
        (r.1, LogEvent.alreadyInPipeline m.name :: r.2)
      else
        let r := add_to_pipeline (pl ++ [m]) rest
        (r.1, LogEvent.addedInfo m.name :: r.2)
    else
      let r := add_to_pipeline pl rest
      (r.1, LogEvent.notPipelineMethod m.name :: r.2)

/-- `remove_from_pipeline` (lines 76-86), after the same single/list
normalization: iterate over the batch; a present method is removed (first
occurrence), an absent method produces an error log and no state change. -/
def remove_from_pipeline (pl : List Stage) : List Stage → List Stage × List LogEvent
  | [] => (pl, [])
  | m :: rest =>
    if memByName pl m.name then
      let r := remove_from_pipeline (eraseByName pl m.name) rest
      (r.1, LogEvent.removedInfo m.name :: r.2)
    else
      let r := remove_from_pipeline pl rest
      (r.1, LogEvent.notInPipeline m.name :: r.2)

/-- `clear_pipeline` (lines 105-110). -/
def clear_pipeline (pl : List Stage) : List Stage × List LogEvent :=
  if pl.isEmpty then (pl, [LogEvent.alreadyEmpty])
  else ([], [LogEvent.clearedAll])

/-- `execute_pipeline` (lines 99-102):
`for method in self.pipeline: text = method(text)` then `return text`.
There is no `try` around the loop, so a raised exception aborts the loop
and propagates: modelled by short-circuiting on `Except.error`. -/
def execute_pipeline : List Stage → Value → Except PyExn Value
  | [], v => Except.ok v
  | m :: rest, v =>
    match m.transform v with
    | Except.ok v' => execute_pipeline rest v'
    | Except.error e => Except.error e

/-! ### Concrete stages used by the claims -/

/-- `make_lowercase` (lines 113-120): `input_text.lower()` inside
`try`/`except AttributeError`.  A non-`str` value has no `.lower`
attribute, the `AttributeError` is caught, the error is logged and `''` is
returned. -/
def make_lowercase (input_text : Value) : Except PyExn Value :=
  match input_text with
  | Value.str s => Except.ok (Value.str s.toLower)
  | _ => Except.ok (Value.str "")

/-- `make_uppercase` (lines 123-130): `input_text.upper()` inside
`try`/`except AttributeError`.  Unlike `make_lowercase`, the except branch
only logs: it has no `return` statement, so the method falls off the end
and returns `None`. -/
def make_uppercase (input_text : Value) : Except PyExn Value :=
  match input_text with
  | Value.str s => Except.ok (Value.str s.toUpper)
  | _ => Except.ok Value.none

/-- Effect of Python `re.sub('\d+', '', s)`: delete every digit character. -/
def stripDigits (s : String) : String :=
  ⟨s.data.filter fun c => !c.isDigit⟩

/-- `remove_numbers` (lines 132-140): `re.sub('\d+', '', input_text)`
inside `try`/`except AttributeError`.  On a non-`str` argument `re.sub`
raises `TypeError` (`expected string or bytes-like object`), which the
`except AttributeError` clause does not catch, so it propagates out of the
stage.  The except branch, when taken, has no `return` either. -/
def remove_numbers (input_text : Value) : Except PyExn Value :=
  match input_text with
  | Value.str s => Except.ok (Value.str (stripDigits s))
  | _ => Except.error (PyExn.typeError "expected string or bytes-like object")

/-- `stem_words` (lines 366-382).  Its first statement, `if stemmer is
None:` (line 369), reads the variable `stemmer`, which is local to the
function because of the assignment `stemmer = self.default_stemmer` at
line 372; under Python scoping the read at line 369 therefore raises
`UnboundLocalError` before the `try` block at line 373 is entered, for
every input and every instance state. -/
def stem_words (_input : Value) : Except PyExn Value :=
  Except.error (PyExn.unboundLocalError "stemmer")

/-- The bound method `self.make_lowercase`, carrying the decorator flag. -/
def lowerStage : Stage :=
  { name := "make_lowercase", is_pipeline_method := true, transform := make_lowercase }

/-- The bound method `self.make_uppercase`. -/
def upperStage : Stage :=
  { name := "make_uppercase", is_pipeline_method := true, transform := make_uppercase }

/-- The bound method `self.remove_numbers`. -/
def removeNumbersStage : Stage :=
  { name := "remove_numbers", is_pipeline_method := true, transform := remove_numbers }

/-- The bound method `self.stem_words`. -/
def stemStage : Stage :=
  { name := "stem_words", is_pipeline_method := true, transform := stem_words }

/-! ### Constructor -/

/-- `supported_languages` (line 43). -/
def supported_languages : List String :=
  ["en", "es", "fr", "pt", "de", "ru", "ar"]

/-- Post-construction state relevant to the claims. -/
structure TextPreprocessor where
  pipeline : List Stage
  language : String

/-- The `ValueError` message of line 45 (the f-string interpolates the
offending language and the supported list). -/
def unsupportedLanguageMsg (language : String) : String :=
  "Unsupported language " ++ language

/-- `__init__` (lines 22-51), restricted to the `language` argument the
claims are about: `self.pipeline = []` (line 35), then the membership
check of lines 43-45 raising `ValueError` for an unsupported language,
then `self.language = language` (line 46).  The remaining constructor
statements (logger setup, default paths, stemmer/lemmatizer defaults,
`nltk.download` calls) neither touch the pipeline nor raise `ValueError`. -/
def init (language : String) : Except PyExn TextPreprocessor :=
  if language ∈ supported_languages then
    Except.ok { pipeline := [], language := language }
  else
    Except.error (PyExn.valueError (unsupportedLanguageMsg language))

/-! ### Invariant vocabulary -/

/-- No stage appears twice (by identity/name) in the ordered sequence. -/
def nodupNames (pl : List Stage) : Prop :=
  (pl.map Stage.name).Nodup

/-! ### Helper lemmas -/

theorem execute_cons (m : Stage) (rest : List Stage) (v : Value) :
    execute_pipeline (m :: rest) v =
      Except.bind (m.transform v) (execute_pipeline rest) := by
  cases h : m.transform v <;> simp [execute_pipeline, h, Except.bind]

theorem memByName_iff (pl : List Stage) (n : String) :
    memByName pl n = true ↔ n ∈ pl.map Stage.name := by
  simp only [memByName, List.any_eq_true, beq_iff_eq, List.mem_map]

theorem memByName_append (pl : List Stage) (m : Stage) (n : String)
    (h : memByName pl n = true) : memByName (pl ++ [m]) n = true := by
  simp only [memByName, List.any_append] at *
  simp [h]

theorem bind_execute_nil (x : Except PyExn Value) :
    Except.bind x (execute_pipeline []) = x := by
  cases x <;> rfl

theorem foldl_bind (pl : List Stage) (acc : Except PyExn Value) :
    pl.foldl (fun cur m => Except.bind cur m.transform) acc =
      Except.bind acc (fun v => execute_pipeline pl v) := by
  induction pl generalizing acc with
  | nil =>
    cases acc <;> rfl
  | cons m rest ih =>
    rw [List.foldl_cons, ih]
    cases acc with
    | error e => rfl
    | ok v =>
      show Except.bind (m.transform v) (fun v => execute_pipeline rest v) =
        execute_pipeline (m :: rest) v
      rw [execute_cons]

/-! ### C1 and C2: the execution engine -/

/-- Claim C1: `execute` applies the registered stages left to right as a
fold, initializing the current value to the input, replacing it with each
stage's output in order, and returning the last stage's output, with no
transformation of its own between stages: it equals the left fold of
stage application and satisfies the appended-stage decomposition. -/
theorem C1_execute_is_fold (pl : List Stage) (v : Value) :
    execute_pipeline pl v =
      pl.foldl (fun cur m => Except.bind cur m.transform) (Except.ok v) ∧
    ∀ m : Stage, execute_pipeline (pl ++ [m]) v =
      Except.bind (execute_pipeline pl v) m.transform := by
  constructor
  · rw [foldl_bind]
    rfl
  · intro m
    induction pl generalizing v with
    | nil =>
      show execute_pipeline [m] v = Except.bind (Except.ok v) m.transform
      rw [execute_cons]
      exact bind_execute_nil (m.transform v)
    | cons m0 rest ih =>
      rw [List.cons_append, execute_cons, execute_cons]
      cases h : m0.transform v with
      | ok v' => exact ih v'
      | error e => rfl

/-- Claim C2: executing the empty pipeline returns the input value
unchanged (the identity transform). -/
theorem C2_empty_pipeline_identity (v : Value) :
    execute_pipeline [] v = Except.ok v := rfl

/-! ### Helper lemmas on add/remove/clear -/

theorem filter_length_mono {p q : Stage → Bool}
    (h : ∀ a, p a = true → q a = true) :
    ∀ l : List Stage, (l.filter p).length ≤ (l.filter q).length := by
  intro l
  induction l with
  | nil => simp
  | cons a l ih =>
    simp only [List.filter_cons]
    by_cases hp : p a = true
    · rw [if_pos hp, if_pos (h a hp)]
      simpa using ih
    · rw [if_neg hp]
      by_cases hq : q a = true
      · rw [if_pos hq]
        exact Nat.le_trans ih (by simp)
      · rw [if_neg hq]
        exact ih

theorem add_length_le (ms : List Stage) : ∀ pl : List Stage,
    (add_to_pipeline pl ms).1.length ≤
      pl.length +
        (ms.filter fun x => x.is_pipeline_method && !(memByName pl x.name)).length := by
  induction ms with
  | nil => intro pl; simp [add_to_pipeline]
  | cons m rest ih =>
    intro pl
    cases he : m.is_pipeline_method with
    | false =>
      simpa [add_to_pipeline, he] using ih pl
    | true =>
      cases hm : memByName pl m.name with
      | true =>
        simpa [add_to_pipeline, he, hm] using ih pl
      | false =>
        have hmono : ∀ a : Stage,
            (a.is_pipeline_method && !(memByName (pl ++ [m]) a.name)) = true →
            (a.is_pipeline_method && !(memByName pl a.name)) = true := by
          intro a ha
          rw [Bool.and_eq_true] at ha ⊢
          refine ⟨ha.1, ?_⟩
          cases hq : memByName pl a.name with
          | false => simp
          | true =>
            have := memByName_append pl m a.name hq
            rw [this] at ha
            simpa using ha.2
        have h1 := ih (pl ++ [m])
        have h2 := filter_length_mono hmono rest
        have hgoal1 : (add_to_pipeline pl (m :: rest)).1 =
            (add_to_pipeline (pl ++ [m]) rest).1 := by
          simp [add_to_pipeline, he, hm]
        have hfil : ((m :: rest).filter
              fun x => x.is_pipeline_method && !(memByName pl x.name)) =
            m :: (rest.filter
              fun x => x.is_pipeline_method && !(memByName pl x.name)) := by
          simp [List.filter_cons, he, hm]
        rw [hgoal1, hfil]
        simp only [List.length_cons, List.length_append, List.length_nil] at h1 ⊢
        omega

theorem add_prefix (ms : List Stage) : ∀ pl : List Stage,
    ∃ added, (add_to_pipeline pl ms).1 = pl ++ added := by
  induction ms with
  | nil => intro pl; exact ⟨[], by simp [add_to_pipeline]⟩
  | cons m rest ih =>
    intro pl
    cases he : m.is_pipeline_method with
    | false => simpa [add_to_pipeline, he] using ih pl
    | true =>
      cases hm : memByName pl m.name with
      | true => simpa [add_to_pipeline, he, hm] using ih pl
      | false =>
        obtain ⟨added, ha⟩ := ih (pl ++ [m])
        refine ⟨m :: added, ?_⟩
        simp [add_to_pipeline, he, hm, ha]

theorem add_logs_length (ms : List Stage) : ∀ pl : List Stage,
    (add_to_pipeline pl ms).2.length = ms.length := by
  induction ms with
  | nil => intro pl; simp [add_to_pipeline]
  | cons m rest ih =>
    intro pl
    cases he : m.is_pipeline_method with
    | false => simp [add_to_pipeline, he, ih pl]
    | true =>
      cases hm : memByName pl m.name with
      | true => simp [add_to_pipeline, he, hm, ih pl]
      | false => simp [add_to_pipeline, he, hm, ih (pl ++ [m])]

theorem nodupNames_append_singleton (pl : List Stage) (m : Stage)
    (h : nodupNames pl) (hm : memByName pl m.name = false) :
    nodupNames (pl ++ [m]) := by
  unfold nodupNames at *
  rw [List.map_append]
  simp only [List.map_cons, List.map_nil, List.nodup_append, List.nodup_cons,
    List.not_mem_nil, not_false_iff, List.nodup_nil, true_and, and_true]
  refine ⟨h, ?_⟩
  intro n hn hn1
  simp only [List.mem_singleton] at hn1
  subst hn1
  have := (memByName_iff pl m.name).2 hn
  rw [hm] at this
  exact absurd this (by simp)

theorem add_nodup (ms : List Stage) : ∀ pl : List Stage,
    nodupNames pl → nodupNames (add_to_pipeline pl ms).1 := by
  induction ms with
  | nil => intro pl h; simpa [add_to_pipeline] using h
  | cons m rest ih =>
    intro pl h
    cases he : m.is_pipeline_method with
    | false => simpa [add_to_pipeline, he] using ih pl h
    | true =>
      cases hm : memByName pl m.name with
      | true => simpa [add_to_pipeline, he, hm] using ih pl h
      | false =>
        have := ih (pl ++ [m]) (nodupNames_append_singleton pl m h hm)
        simpa [add_to_pipeline, he, hm] using this

theorem add_fold_nodup (batches : List (List Stage)) : ∀ pl : List Stage,
    nodupNames pl →
    nodupNames (batches.foldl (fun p b => (add_to_pipeline p b).1) pl) := by
  induction batches with
  | nil => intro pl h; simpa using h
  | cons b rest ih => intro pl h; exact ih _ (add_nodup b pl h)

theorem remove_sublist (ms : List Stage) : ∀ pl : List Stage,
    List.Sublist (remove_from_pipeline pl ms).1 pl := by
  induction ms with
  | nil => intro pl; simp [remove_from_pipeline]
  | cons m rest ih =>
    intro pl
    cases hm : memByName pl m.name with
    | false => simpa [remove_from_pipeline, hm] using ih pl
    | true =>
      have h1 := ih (eraseByName pl m.name)
      have h2 : List.Sublist (eraseByName pl m.name) pl :=
        List.eraseP_sublist pl
      simpa [remove_from_pipeline, hm] using h1.trans h2

theorem remove_logs_length (ms : List Stage) : ∀ pl : List Stage,
    (remove_from_pipeline pl ms).2.length = ms.length := by
  induction ms with
  | nil => intro pl; simp [remove_from_pipeline]
  | cons m rest ih =>
    intro pl
    cases hm : memByName pl m.name with
    | false => simp [remove_from_pipeline, hm, ih pl]
    | true => simp [remove_from_pipeline, hm, ih (eraseByName pl m.name)]

theorem remove_nodup (ms : List Stage) (pl : List Stage)
    (h : nodupNames pl) : nodupNames (remove_from_pipeline pl ms).1 := by
  unfold nodupNames at *
  exact ((remove_sublist ms pl).map Stage.name).nodup h

theorem clear_nodup (pl : List Stage) : nodupNames (clear_pipeline pl).1 := by
  cases pl <;> simp [clear_pipeline, nodupNames]

/-! ### C3 and C4: batch add and the no-duplicate invariant -/

/-- Claim C3: for every batch passed to `add_to_pipeline`, an unmarked
stage is rejected with an error naming it while the rest of the batch is
still processed; a marked stage already present is skipped with a
warning; a marked, absent stage is appended at the end; one report is
emitted per batch item; the original pipeline is a prefix of the result;
and the length grows by at most the number of eligible, previously-absent
batch items. -/
theorem C3_add_batch (pl : List Stage) (m : Stage) (ms : List Stage) :
    (m.is_pipeline_method = false →
      add_to_pipeline pl (m :: ms) =
        ((add_to_pipeline pl ms).1,
          LogEvent.notPipelineMethod m.name :: (add_to_pipeline pl ms).2)) ∧
    (m.is_pipeline_method = true → memByName pl m.name = true →
      add_to_pipeline pl (m :: ms) =
        ((add_to_pipeline pl ms).1,
          LogEvent.alreadyInPipeline m.name :: (add_to_pipeline pl ms).2)) ∧
    (m.is_pipeline_method = true → memByName pl m.name = false →
      add_to_pipeline pl (m :: ms) =
        ((add_to_pipeline (pl ++ [m]) ms).1,
          LogEvent.addedInfo m.name :: (add_to_pipeline (pl ++ [m]) ms).2)) ∧
    (add_to_pipeline pl (m :: ms)).2.length = ms.length + 1 ∧
    (∃ added, (add_to_pipeline pl (m :: ms)).1 = pl ++ added) ∧
    (add_to_pipeline pl (m :: ms)).1.length ≤
      pl.length +
        ((m :: ms).filter
          fun x => x.is_pipeline_method && !(memByName pl x.name)).length := by
  refine ⟨?_, ?_, ?_, ?_, add_prefix (m :: ms) pl, add_length_le (m :: ms) pl⟩
  · intro he; simp [add_to_pipeline, he]
  · intro he hm; simp [add_to_pipeline, he, hm]
  · intro he hm; simp [add_to_pipeline, he, hm]
  · simpa using add_logs_length (m :: ms) pl

/-- Witness for C3: adding the unmarked method `view_pipeline` emits an
error naming it and leaves the pipeline unchanged; adding an
already-present `make_lowercase` emits a warning and does not duplicate. -/
theorem C3_witness :
    add_to_pipeline [] [Stage.mk "view_pipeline" false (fun v => Except.ok v)] =
      ([], [LogEvent.notPipelineMethod "view_pipeline"]) ∧
    add_to_pipeline [lowerStage] [lowerStage] =
      ([lowerStage], [LogEvent.alreadyInPipeline "make_lowercase"]) := by
  constructor
  · exact ((C3_add_batch [] (Stage.mk "view_pipeline" false
      (fun v => Except.ok v)) []).1 rfl).trans rfl
  · exact ((C3_add_batch [lowerStage] lowerStage []).2.1 rfl rfl).trans rfl

/-- Claim C4: starting from any duplicate-free pipeline state, any
sequence of `add` batches yields a sequence with no stage (by name)
twice, and the no-duplicate invariant is preserved by `add`, `remove`
and `clear`. -/
theorem C4_nodup_invariant (pl : List Stage) (h : nodupNames pl) :
    (∀ batches : List (List Stage),
      nodupNames (batches.foldl (fun p b => (add_to_pipeline p b).1) pl)) ∧
    (∀ ms : List Stage, nodupNames (add_to_pipeline pl ms).1) ∧
    (∀ ms : List Stage, nodupNames (remove_from_pipeline pl ms).1) ∧
    nodupNames (clear_pipeline pl).1 :=
  ⟨fun batches => add_fold_nodup batches pl h,
   fun ms => add_nodup ms pl h,
   fun ms => remove_nodup ms pl h,
   clear_nodup pl⟩

/-- Witness for C4: adding a batch that repeats `make_lowercase` to the
empty pipeline still yields a duplicate-free pipeline. -/
theorem C4_witness :
    nodupNames (add_to_pipeline [] [lowerStage, lowerStage, upperStage]).1 :=
  (C4_nodup_invariant [] (by simp [nodupNames])).2.1
    [lowerStage, lowerStage, upperStage]

/-! ### C5: add then remove -/

/-- Counterexample to claim C5 as stated: with the eligible stage
`make_lowercase` already present, `add` skips it (duplicate warning) and
the subsequent `remove` deletes the pre-existing entry, so the pipeline
does not return to its prior state. -/
theorem C5_counterexample :
    lowerStage.is_pipeline_method = true ∧
    (remove_from_pipeline (add_to_pipeline [lowerStage] [lowerStage]).1
        [lowerStage]).1 ≠ [lowerStage] := by
  refine ⟨rfl, ?_⟩
  intro hEq
  have h0 : (remove_from_pipeline (add_to_pipeline [lowerStage] [lowerStage]).1
      [lowerStage]).1.length = 0 := rfl
  rw [hEq] at h0
  simp at h0

/-- Claim C5 amended: for every pipeline state and every eligible stage
`s` that is not already present, `add(s)` followed immediately by
`remove(s)` returns the pipeline to exactly its prior ordered state. -/
theorem C5_add_remove_inverse (pl : List Stage) (s : Stage)
    (he : s.is_pipeline_method = true) (habs : memByName pl s.name = false) :
    (remove_from_pipeline (add_to_pipeline pl [s]).1 [s]).1 = pl := by
  have hadd : (add_to_pipeline pl [s]).1 = pl ++ [s] := by
    simp [add_to_pipeline, he, habs]
  rw [hadd]
  have hmem : memByName (pl ++ [s]) s.name = true := by
    simp [memByName, List.any_append]
  simp only [remove_from_pipeline, hmem, if_true]
  show (eraseByName (pl ++ [s]) s.name) = pl
  unfold eraseByName
  rw [List.eraseP_append_right]
  · simp
  · intro b hb
    have hball : ∀ x ∈ pl, ¬(x.name = s.name) := by
      simpa [memByName, List.any_eq_true] using habs
    simpa using hball b hb

/-- Witness for C5 (amended): on the empty pipeline, adding then removing
`make_lowercase` restores the empty pipeline. -/
theorem C5_witness :
    (remove_from_pipeline (add_to_pipeline [] [lowerStage]).1 [lowerStage]).1
      = [] :=
  C5_add_remove_inverse [] lowerStage rfl rfl

/-! ### C6: batch remove -/

/-- Claim C6: for every batch passed to `remove_from_pipeline`, a present
stage is removed (first occurrence, relative order of the remaining
stages preserved: the result is a sublist of the prior pipeline), an
absent stage produces an error naming it with no state change, the rest
of the batch is still processed either way, and one report is emitted
per batch item. -/
theorem C6_remove_batch (pl : List Stage) (m : Stage) (ms : List Stage) :
    (memByName pl m.name = true →
      remove_from_pipeline pl (m :: ms) =
        ((remove_from_pipeline (eraseByName pl m.name) ms).1,
          LogEvent.removedInfo m.name ::
            (remove_from_pipeline (eraseByName pl m.name) ms).2)) ∧
    (memByName pl m.name = false →
      remove_from_pipeline pl (m :: ms) =
        ((remove_from_pipeline pl ms).1,
          LogEvent.notInPipeline m.name :: (remove_from_pipeline pl ms).2)) ∧
    List.Sublist (eraseByName pl m.name) pl ∧
    List.Sublist (remove_from_pipeline pl (m :: ms)).1 pl ∧
    (remove_from_pipeline pl (m :: ms)).2.length = ms.length + 1 := by
  refine ⟨?_, ?_, List.eraseP_sublist pl, remove_sublist (m :: ms) pl, ?_⟩
  · intro hm; simp [remove_from_pipeline, hm]
  · intro hm; simp [remove_from_pipeline, hm]
  · simpa using remove_logs_length (m :: ms) pl

/-- Witness for C6: removing the absent `make_uppercase` from
`[make_lowercase]` reports an error and leaves the pipeline unchanged;
removing the present `make_lowercase` removes it. -/
theorem C6_witness :
    remove_from_pipeline [lowerStage] [upperStage] =
      ([lowerStage], [LogEvent.notInPipeline "make_uppercase"]) ∧
    remove_from_pipeline [lowerStage] [lowerStage] =
      ([], [LogEvent.removedInfo "make_lowercase"]) := by
  constructor
  · exact ((C6_remove_batch [lowerStage] upperStage []).2.1 rfl).trans rfl
  · exact ((C6_remove_batch [lowerStage] lowerStage []).1 rfl).trans rfl

/-! ### C7: stage fallback contract -/

/-- Claim C7 is violated by the code (evaluated here at the failing
inputs): on a token-list input `make_uppercase` catches the
`AttributeError` but its except branch has no `return` statement, so the
stage returns `None`, which is neither an empty string nor an empty
sequence; and `remove_numbers` on a token-list input raises `TypeError`
from `re.sub`, which its `except AttributeError` clause does not catch,
so the exception escapes the stage. -/
theorem C7_stage_fallback_violation :
    make_uppercase (Value.toks ["Hello"]) = Except.ok Value.none ∧
    Value.none ≠ Value.str "" ∧
    Value.none ≠ Value.toks [] ∧
    remove_numbers (Value.toks ["Hello"]) =
      Except.error (PyExn.typeError "expected string or bytes-like object") :=
  ⟨rfl, by decide, by decide, rfl⟩

/-! ### C8: the engine catches nothing -/

/-- Claim C8: the engine never catches a stage's exception: if the stages
before `m` succeed and `m` raises `e`, then `execute` of the whole
pipeline returns exactly that `e` (original cause intact, no wrapping),
regardless of the stages queued after `m`, which never run. -/
theorem C8_fault_propagation (p1 p2 : List Stage) (m : Stage) (v v' : Value)
    (e : PyExn) (h1 : execute_pipeline p1 v = Except.ok v')
    (h2 : m.transform v' = Except.error e) :
    execute_pipeline (p1 ++ m :: p2) v = Except.error e := by
  induction p1 generalizing v with
  | nil =>
    have hv : v' = v := by simpa [execute_pipeline] using h1.symm
    subst hv
    rw [List.nil_append, execute_cons, h2]
    rfl
  | cons m0 rest ih =>
    rw [List.cons_append, execute_cons]
    rw [execute_cons] at h1
    cases h0 : m0.transform v with
    | ok w =>
      rw [h0] at h1
      exact ih w h1
    | error e0 =>
      rw [h0] at h1
      exact Except.noConfusion h1

/-- Witness for C8: with an empty prefix, `remove_numbers` raising
`TypeError` on a token-list value, and `make_uppercase` queued after it,
the `TypeError` propagates out of `execute` unchanged. -/
theorem C8_witness :
    execute_pipeline ([] ++ removeNumbersStage :: [upperStage])
        (Value.toks ["Hello"]) =
      Except.error (PyExn.typeError "expected string or bytes-like object") :=
  C8_fault_propagation [] [upperStage] removeNumbersStage
    (Value.toks ["Hello"]) (Value.toks ["Hello"])
    (PyExn.typeError "expected string or bytes-like object") rfl rfl

/-! ### C9: stem_words -/

theorem execute_mem_failing (pl : List Stage) (h : stemStage ∈ pl) :
    ∀ v : Value, ∃ e : PyExn, execute_pipeline pl v = Except.error e := by
  induction pl with
  | nil => cases h
  | cons m rest ih =>
    intro v
    rw [execute_cons]
    cases hmt : m.transform v with
    | error e => exact ⟨e, rfl⟩
    | ok v' =>
      rcases List.mem_cons.1 h with heq | hmem
      · rw [← heq] at hmt
        simp [stemStage, stem_words] at hmt
      · exact ih hmem v'

/-- Claim C9: `stem_words` raises `UnboundLocalError` (reading the local
`stemmer` before any assignment) for every input, before its `try` block,
so it never returns a token list; and every `execute` call over a
pipeline containing the `stem_words` stage ends in a raised exception,
never a returned value. -/
theorem C9_stem_words_unbound (pl : List Stage) (v : Value)
    (h : stemStage ∈ pl) :
    (∀ w : Value,
      stem_words w = Except.error (PyExn.unboundLocalError "stemmer")) ∧
    ∃ e : PyExn, execute_pipeline pl v = Except.error e :=
  ⟨fun _ => rfl, execute_mem_failing pl h v⟩

/-- Witness for C9: executing `[stem_words]` on a plain string aborts
with a raised exception. -/
theorem C9_witness :
    ∃ e : PyExn,
      execute_pipeline [stemStage] (Value.str "hello") = Except.error e :=
  (C9_stem_words_unbound [stemStage] (Value.str "hello")
    (List.mem_singleton.2 rfl)).2

/-! ### C10: the constructor -/

/-- Claim C10: the constructor raises `ValueError` exactly for a language
outside the seven supported codes; for a supported language it succeeds,
and every successfully constructed instance starts with an empty
pipeline. -/
theorem C10_init_language (language : String) :
    (language ∈ supported_languages →
      init language = Except.ok { pipeline := [], language := language }) ∧
    (language ∉ supported_languages →
      init language =
        Except.error (PyExn.valueError (unsupportedLanguageMsg language))) ∧
    (∀ st : TextPreprocessor, init language = Except.ok st →
      st.pipeline = []) := by
  refine ⟨?_, ?_, ?_⟩
  · intro h; simp [init, h]
  · intro h; simp [init, h]
  · intro st hst
    unfold init at hst
    by_cases h : language ∈ supported_languages
    · rw [if_pos h] at hst
      injection hst with h2
      rw [← h2]
    · rw [if_neg h] at hst
      exact Except.noConfusion hst

/-- Witness for C10: `'en'` is accepted with an empty pipeline, `'xx'` is
rejected with `ValueError`. -/
theorem C10_witness :
    init "en" = Except.ok { pipeline := [], language := "en" } ∧
    init "xx" =
      Except.error (PyExn.valueError (unsupportedLanguageMsg "xx")) :=
  ⟨(C10_init_language "en").1 (by decide),
   (C10_init_language "xx").2.1 (by decide)⟩

end TextPreprocessorSDK
